import Mathlib

/-!
# Rotation of a point about an arbitrary axis

A shallow embedding of `src/3d_rotations.cpp`.  The routine
`rotatePointAboutAxis` aligns the rotation axis with the Z axis by a rotation
about X followed by a rotation about Y, rotates about Z by the requested
angle, and undoes the alignment.

The C++ code computes in `float`; here the scalar type is a parameter `K`
(a type with the arithmetic operations and decidable equality) and the three
library functions the code calls (`sqrt` inside Eigen's `norm`, `sin`, `cos`)
are passed in a record `MathOps K`.  The definitions are therefore ordinary
computable functions.  Two instances are used: `realOps` over `ℝ`, the routine
in exact real arithmetic, and `binary32Ops` over `Binary32`, the routine in
the rounded arithmetic of `float`.  The properties that hold in exact
arithmetic are proved for `realOps`; where a property is lost to underflow or
absorption in `float`, a concrete input is evaluated with `binary32Ops`.
-/

namespace Rotations3D

/-! ## Data model -/

/-- The scalar library functions used by the routine. -/
structure MathOps (K : Type) where
  /-- Square root, used by the Eigen call `norm()`. -/
  sqrt : K → K
  /-- Sine, `sin(angle)`. -/
  sin : K → K
  /-- Cosine, `cos(angle)`. -/
  cos : K → K

/-- Eigen `Vector3f`: a column vector with coordinates `x()`, `y()`, `z()`. -/
@[ext]
structure Vector3f (K : Type) where
  x : K
  y : K
  z : K
deriving DecidableEq

/-- Eigen `Matrix3f`: a 3×3 matrix; `mij` is the entry in row `i`, column `j`.
The comma initialiser `M << a, b, c, d, ...` of the source fills the entries
row by row, which is the order of the fields here. -/
@[ext]
structure Matrix3f (K : Type) where
  m00 : K
  m01 : K
  m02 : K
  m10 : K
  m11 : K
  m12 : K
  m20 : K
  m21 : K
  m22 : K
deriving DecidableEq

variable {K : Type}

namespace Vector3f

/-- Coordinatewise sum, Eigen `operator+`. -/
def add [Add K] (u v : Vector3f K) : Vector3f K :=
  ⟨u.x + v.x, u.y + v.y, u.z + v.z⟩

/-- Coordinatewise difference, Eigen `operator-`. -/
def sub [Sub K] (u v : Vector3f K) : Vector3f K :=
  ⟨u.x - v.x, u.y - v.y, u.z - v.z⟩

/-- Multiplication of a vector by a scalar. -/
def scale [Mul K] (s : K) (v : Vector3f K) : Vector3f K :=
  ⟨s * v.x, s * v.y, s * v.z⟩

/-- Dot product. -/
def dot [Add K] [Mul K] (u v : Vector3f K) : K :=
  u.x * v.x + u.y * v.y + u.z * v.z

/-- Cross product `u × v`. -/
def cross [Sub K] [Mul K] (u v : Vector3f K) : Vector3f K :=
  ⟨u.y * v.z - u.z * v.y, u.z * v.x - u.x * v.z, u.x * v.y - u.y * v.x⟩

/-- Eigen `squaredNorm()`: the sum of the squares of the coordinates. -/
def squaredNorm [Add K] [Mul K] (v : Vector3f K) : K :=
  v.x * v.x + v.y * v.y + v.z * v.z

/-- Eigen `norm()`: the square root of `squaredNorm()`. -/
def norm [Add K] [Mul K] (F : MathOps K) (v : Vector3f K) : K :=
  F.sqrt v.squaredNorm

instance [Add K] : Add (Vector3f K) := ⟨add⟩

instance [Sub K] : Sub (Vector3f K) := ⟨sub⟩

end Vector3f

namespace Matrix3f

/-- Eigen `setIdentity()`. -/
def identity [Zero K] [One K] : Matrix3f K :=
  ⟨1, 0, 0,
   0, 1, 0,
   0, 0, 1⟩

/-- Matrix product, Eigen `operator*` on two matrices. -/
def mul [Add K] [Mul K] (A B : Matrix3f K) : Matrix3f K :=
  ⟨A.m00 * B.m00 + A.m01 * B.m10 + A.m02 * B.m20,
   A.m00 * B.m01 + A.m01 * B.m11 + A.m02 * B.m21,
   A.m00 * B.m02 + A.m01 * B.m12 + A.m02 * B.m22,
   A.m10 * B.m00 + A.m11 * B.m10 + A.m12 * B.m20,
   A.m10 * B.m01 + A.m11 * B.m11 + A.m12 * B.m21,
   A.m10 * B.m02 + A.m11 * B.m12 + A.m12 * B.m22,
   A.m20 * B.m00 + A.m21 * B.m10 + A.m22 * B.m20,
   A.m20 * B.m01 + A.m21 * B.m11 + A.m22 * B.m21,
   A.m20 * B.m02 + A.m21 * B.m12 + A.m22 * B.m22⟩

/-- Matrix times column vector, Eigen `operator*` on a matrix and a vector. -/
def mulVec [Add K] [Mul K] (A : Matrix3f K) (v : Vector3f K) : Vector3f K :=
  ⟨A.m00 * v.x + A.m01 * v.y + A.m02 * v.z,
   A.m10 * v.x + A.m11 * v.y + A.m12 * v.z,
   A.m20 * v.x + A.m21 * v.y + A.m22 * v.z⟩

/-- Transpose. -/
def transpose (A : Matrix3f K) : Matrix3f K :=
  ⟨A.m00, A.m10, A.m20,
   A.m01, A.m11, A.m21,
   A.m02, A.m12, A.m22⟩

/-- The three cofactors of the first column, `cofactor_3x3<i,0>` in Eigen. -/
def cofactorsCol0 [Sub K] [Mul K] (A : Matrix3f K) : Vector3f K :=
  ⟨A.m11 * A.m22 - A.m12 * A.m21,
   A.m21 * A.m02 - A.m22 * A.m01,
   A.m01 * A.m12 - A.m02 * A.m11⟩

/-- The determinant as Eigen's 3×3 inverse computes it: the first-column
cofactors multiplied coordinatewise with the first column, summed. -/
def determinant [Add K] [Sub K] [Mul K] (A : Matrix3f K) : K :=
  A.cofactorsCol0.x * A.m00 + A.cofactorsCol0.y * A.m10 + A.cofactorsCol0.z * A.m20

/-- Eigen `inverse()` for a fixed-size 3×3 matrix (library code the source
calls): entry `(i, j)` of the result is the cofactor `(j, i)` of the argument
times `1 / det`, where cofactor `(i, j)` is
`m(i+1, j+1) * m(i+2, j+2) - m(i+1, j+2) * m(i+2, j+1)` with indices mod 3. -/
def inverse [One K] [Add K] [Sub K] [Mul K] [Div K] (A : Matrix3f K) : Matrix3f K :=
  let invdet : K := 1 / A.determinant
  ⟨A.cofactorsCol0.x * invdet, A.cofactorsCol0.y * invdet, A.cofactorsCol0.z * invdet,
   (A.m12 * A.m20 - A.m10 * A.m22) * invdet,
   (A.m22 * A.m00 - A.m20 * A.m02) * invdet,
   (A.m02 * A.m10 - A.m00 * A.m12) * invdet,
   (A.m10 * A.m21 - A.m11 * A.m20) * invdet,
   (A.m20 * A.m01 - A.m21 * A.m00) * invdet,
   (A.m00 * A.m11 - A.m01 * A.m10) * invdet⟩

instance [Add K] [Mul K] : Mul (Matrix3f K) := ⟨mul⟩

instance [Add K] [Mul K] : HMul (Matrix3f K) (Vector3f K) (Vector3f K) := ⟨mulVec⟩

end Matrix3f

/-! ## The routine -/

/-- The source function `rotatePointAboutAxis(Vector3f point, Vector3f axis, float angle)`. -/
def rotatePointAboutAxis [Zero K] [One K] [Neg K] [Add K] [Sub K] [Mul K] [Div K] [DecidableEq K]
    (F : MathOps K) (point axis : Vector3f K) (angle : K) : Vector3f K :=
  -- check that the rotation axis is valid
  let axisLength : K := axis.norm F
  if axisLength = 0 then
    point
  else
    -- step one: rotate about x so that the rotation vector lies in the xz plane
    let yzProjection : Vector3f K := ⟨0, axis.y, axis.z⟩
    let yzProjectionLength : K := yzProjection.norm F
    let rotationX : Matrix3f K :=
      if yzProjectionLength ≠ 0 then
        let sinTheta : K := yzProjection.y / yzProjectionLength
        let cosTheta : K := yzProjection.z / yzProjectionLength
        ⟨1, 0, 0,
         0, cosTheta, -sinTheta,
         0, sinTheta, cosTheta⟩
      else
        -- rotation axis already lies on the x axis
        Matrix3f.identity
    -- update coordinates of axis so we can use it in the next step
    let axis : Vector3f K := rotationX * axis
    -- step two: rotate about y so that the rotation vector lies on the z axis
    let sinTheta : K := (-1 * axis.x) / axisLength
    let cosTheta : K := axis.z / axisLength
    let rotationY : Matrix3f K :=
      ⟨cosTheta, 0, sinTheta,
       0, 1, 0,
       -sinTheta, 0, cosTheta⟩
    -- step three: a regular rotation about the z axis
    let rotationZ : Matrix3f K :=
      ⟨F.cos angle, -F.sin angle, 0,
       F.sin angle, F.cos angle, 0,
       0, 0, 1⟩
    -- step four: compose all rotations and inverses
    rotationX.inverse * rotationY.inverse * rotationZ * rotationY * rotationX * point

/-- The source overload
`rotatePointAboutAxis(Vector3f point, Vector3f p1, Vector3f p2, float angle)`. -/
def rotatePointAboutAxisP1P2 [Zero K] [One K] [Neg K] [Add K] [Sub K] [Mul K] [Div K] [DecidableEq K]
    (F : MathOps K) (point p1 p2 : Vector3f K) (angle : K) : Vector3f K :=
  -- translate everything so that p1 is the origin
  let rotationAxis : Vector3f K := p2 - p1
  let point : Vector3f K := point - p1
  -- calculate the rotation
  let point : Vector3f K := rotatePointAboutAxis F point rotationAxis angle
  -- translate back to the original position
  point + p1

/-! ### The local variables of the routine, as functions of its arguments -/

/-- The local `rotationX` of the routine, as a function of the `axis` argument. -/
def rotationX [Zero K] [One K] [Neg K] [Add K] [Mul K] [Div K] [DecidableEq K]
    (F : MathOps K) (axis : Vector3f K) : Matrix3f K :=
  let yzProjection : Vector3f K := ⟨0, axis.y, axis.z⟩
  let yzProjectionLength : K := yzProjection.norm F
  if yzProjectionLength ≠ 0 then
    let sinTheta : K := yzProjection.y / yzProjectionLength
    let cosTheta : K := yzProjection.z / yzProjectionLength
    ⟨1, 0, 0,
     0, cosTheta, -sinTheta,
     0, sinTheta, cosTheta⟩
  else
    Matrix3f.identity

/-- The local `rotationY` of the routine, as a function of the `axis` argument:
it is built from the axis after the update `axis = rotationX * axis` and from
the length of the axis computed at the start. -/
def rotationY [Zero K] [One K] [Neg K] [Add K] [Mul K] [Div K] [DecidableEq K]
    (F : MathOps K) (axis : Vector3f K) : Matrix3f K :=
  let axisLength : K := axis.norm F
  let axis : Vector3f K := rotationX F axis * axis
  let sinTheta : K := (-1 * axis.x) / axisLength
  let cosTheta : K := axis.z / axisLength
  ⟨cosTheta, 0, sinTheta,
   0, 1, 0,
   -sinTheta, 0, cosTheta⟩

/-- The local `rotationZ` of the routine, as a function of the `angle` argument. -/
def rotationZ (F : MathOps K) [Neg K] [Zero K] [One K] (angle : K) : Matrix3f K :=
  ⟨F.cos angle, -F.sin angle, 0,
   F.sin angle, F.cos angle, 0,
   0, 0, 1⟩

/-- The library functions over the reals: exact square root, sine and cosine. -/
noncomputable def realOps : MathOps ℝ :=
  ⟨Real.sqrt, Real.sin, Real.cos⟩

/-! ## Specification-side definitions -/

/-- Rodrigues' rotation formula as the specification words it, with the unit
axis `k = A / |A|`: `P * cos t + (k × P) * sin t + k * (k · P) * (1 - cos t)`. -/
def rodrigues [Field K] (F : MathOps K) (P A : Vector3f K) (t : K) : Vector3f K :=
  let k : Vector3f K := Vector3f.scale (1 / A.norm F) A
  Vector3f.scale (F.cos t) P + Vector3f.scale (F.sin t) (k.cross P)
    + Vector3f.scale (k.dot P * (1 - F.cos t)) k

/-- The foot of the perpendicular from `P` to the line through the origin
along `A`: the orthogonal projection `((P · A) / (A · A)) A`. -/
def footOnAxis [Field K] (P A : Vector3f K) : Vector3f K :=
  Vector3f.scale (P.dot A / A.dot A) A

/-- The perpendicular distance from `P` to the line through the origin along
`A`: the length of `P` minus its orthogonal projection onto the line. -/
def perpDistance [Field K] (F : MathOps K) (P A : Vector3f K) : K :=
  (P - footOnAxis P A).norm F

/-- A proper rotation: an orthogonal matrix with determinant one. -/
def Matrix3f.IsRotation [Zero K] [One K] [Add K] [Sub K] [Mul K] (A : Matrix3f K) : Prop :=
  A.transpose * A = Matrix3f.identity ∧ A.determinant = 1

instance [Zero K] [One K] [Add K] [Sub K] [Mul K] [DecidableEq K] (A : Matrix3f K) :
    Decidable A.IsRotation :=
  inferInstanceAs (Decidable (A.transpose * A = Matrix3f.identity ∧ A.determinant = 1))

/-- The alignment the routine applies before the rotation about Z: the product
`rotationY * rotationX` of its two auxiliary rotations. -/
def alignment [Zero K] [One K] [Neg K] [Add K] [Mul K] [Div K] [DecidableEq K]
    (F : MathOps K) (axis : Vector3f K) : Matrix3f K :=
  rotationY F axis * rotationX F axis

/-! ## Algebra of 3-vectors and 3×3 matrices -/

/-! ## The binary32 instance

The source computes in `float`, the IEEE 754 binary32 format.  Every finite
binary32 number is an integer multiple of `2^-149`; a number is represented
here by that integer.  The arithmetic operations are the exact operations
followed by rounding to nearest, ties to even, with 24 significant bits and
gradual underflow; a product and a sum are rounded separately (no fused
multiply-add).  Outside the model: overflow (the exponent is unbounded above,
so there are no infinities), NaN, the sign of zero, and division by zero
(which gives zero here); none of these occurs on the inputs evaluated below.  The sums of three products that Eigen forms in
`squaredNorm`, in a matrix product and in a matrix-vector product are taken
left to right, as the definitions above are written; Eigen may associate them
differently, and the inputs used in the theorems below make every such sum
exact, so that the order cannot matter there. -/

/-- A finite binary32 number: `units` stands for the number `units * 2^-149`. -/
structure Binary32 where
  units : ℤ
deriving DecidableEq

namespace Binary32

/-- The number of binary digits of `n`, with `fuel` bounding the recursion. -/
def bitLengthAux : ℕ → ℕ → ℕ
  | 0, _ => 0
  | fuel + 1, n => if n = 0 then 0 else bitLengthAux fuel (n / 2) + 1

/-- The number of binary digits of `n`: the least `L` with `n < 2^L`. -/
def bitLength (n : ℕ) : ℕ :=
  bitLengthAux n n

/-- The natural number nearest to `n / d`, ties to even. -/
def nearestEven (n d : ℕ) : ℕ :=
  let q := n / d
  let r := n % d
  if 2 * r < d then q
  else if d < 2 * r then q + 1
  else if q % 2 = 0 then q else q + 1

/-- Rounding of the non-negative rational `n / d`, counted in units of `2^-149`,
to binary32: the spacing of the grid at `n / d` is `2^k` units, where `k` is
the number of binary digits of the integer part beyond 24 (and `0` in the
subnormal range and the first binade). -/
def roundMag (n d : ℕ) : ℕ :=
  let k := bitLength (n / d) - 24
  nearestEven n (d * 2 ^ k) * 2 ^ k

/-- Rounding of the rational `num / den`, counted in units of `2^-149`. -/
def ofRat (num : ℤ) (den : ℕ) : Binary32 :=
  ⟨Int.sign num * (roundMag num.natAbs den : ℕ)⟩

/-- The number `m * 2^e`, for `-149 ≤ e` and `|m| < 2^24`. -/
def dyadic (m : ℤ) (e : ℤ) : Binary32 :=
  ⟨m * ((2 ^ (e + 149).toNat : ℕ) : ℤ)⟩

/-- Digit-by-digit integer square root: the digits `2^(i-1), ..., 2^0` are added
to `r` as long as the square does not exceed `n`. -/
def isqrtAux (n : ℕ) : ℕ → ℕ → ℕ
  | 0, r => r
  | i + 1, r =>
    if (r + 2 ^ i) * (r + 2 ^ i) ≤ n then isqrtAux n i (r + 2 ^ i) else isqrtAux n i r

/-- The integer square root: the greatest `q` with `q * q ≤ n`. -/
def isqrt (n : ℕ) : ℕ :=
  isqrtAux n (bitLength n) 0

instance : Zero Binary32 := ⟨⟨0⟩⟩

instance : One Binary32 := ⟨⟨((2 ^ 149 : ℕ) : ℤ)⟩⟩

instance : Neg Binary32 := ⟨fun a => ⟨-a.units⟩⟩

instance : Add Binary32 := ⟨fun a b => ofRat (a.units + b.units) 1⟩

instance : Sub Binary32 := ⟨fun a b => ofRat (a.units - b.units) 1⟩

instance : Mul Binary32 := ⟨fun a b => ofRat (a.units * b.units) (2 ^ 149)⟩

instance : Div Binary32 :=
  ⟨fun a b =>
    if b.units = 0 then ⟨0⟩
    else ofRat (a.units * ((2 ^ 149 : ℕ) : ℤ) * Int.sign b.units) b.units.natAbs⟩

instance : LT Binary32 := ⟨fun a b => a.units < b.units⟩

instance (a b : Binary32) : Decidable (a < b) :=
  inferInstanceAs (Decidable (a.units < b.units))

/-- The correctly rounded square root.  With `N = units * 2^149` the exact
result is `√N` units; `m` is the integer part of `√N / 2^k` for the spacing
`2^k` at `√N`, and it is rounded up when `√N` exceeds `(m + 1/2) * 2^k`.  The
square root of zero is zero; the NaN of a negative argument is outside the
model. -/
def sqrt (a : Binary32) : Binary32 :=
  if a.units ≤ 0 then ⟨0⟩
  else
    let N : ℕ := a.units.natAbs * 2 ^ 149
    let k : ℕ := bitLength (isqrt N) - 24
    let m : ℕ := isqrt (N / 4 ^ k)
    let half : ℕ := (2 * m + 1) * (2 * m + 1) * 4 ^ k
    if half < 4 * N then ⟨((m + 1) * 2 ^ k : ℕ)⟩
    else if 4 * N < half then ⟨(m * 2 ^ k : ℕ)⟩
    else if m % 2 = 0 then ⟨(m * 2 ^ k : ℕ)⟩ else ⟨((m + 1) * 2 ^ k : ℕ)⟩

/-- The numerator of the Maclaurin partial sum
`∑ i < T, (-1)^i x^(2i+p) / (2i+p)!` at `x = n * 2^-149`, over the common
denominator `(2^149)^(2T-2+p) * (2T-2+p)!`. -/
def seriesNum (n : ℤ) (p T : ℕ) : ℤ :=
  (List.range T).foldl
    (fun acc i => acc + (-1) ^ i * n ^ (2 * i + p)
      * (((2 ^ 149) ^ (2 * T - 2 - 2 * i) * ((2 * T - 2 + p).factorial / (2 * i + p).factorial)
          : ℕ) : ℤ))
    0

/-- The library sine.  The math library is not part of the repository; its
`sin` is taken to return the binary32 number nearest to the sine of its exact
argument, computed here from 17 terms of the Maclaurin series (for `|x| ≤ 4`
the partial sum is within `10^-17` of the sine). -/
def sin (a : Binary32) : Binary32 :=
  ofRat (seriesNum a.units 1 17 * ((2 ^ 149 : ℕ) : ℤ)) ((2 ^ 149) ^ 33 * (33).factorial)

/-- The library cosine, modelled like `sin`. -/
def cos (a : Binary32) : Binary32 :=
  ofRat (seriesNum a.units 0 17 * ((2 ^ 149 : ℕ) : ℤ)) ((2 ^ 149) ^ 32 * (32).factorial)

end Binary32

/-- The library functions in binary32. -/
def binary32Ops : MathOps Binary32 :=
  ⟨Binary32.sqrt, Binary32.sin, Binary32.cos⟩

theorem Matrix3f.transpose_transpose (A : Matrix3f K) : A.transpose.transpose = A := by
  ext <;> simp only [Matrix3f.transpose]

section Algebra

variable [Field K]

theorem Vector3f.add_def (u v : Vector3f K) : u + v = Vector3f.add u v := rfl

theorem Vector3f.sub_def (u v : Vector3f K) : u - v = Vector3f.sub u v := rfl

theorem Matrix3f.mul_def (A B : Matrix3f K) : A * B = Matrix3f.mul A B := rfl

theorem Matrix3f.mulVec_def (A : Matrix3f K) (v : Vector3f K) :
    A * v = Matrix3f.mulVec A v := rfl

theorem Matrix3f.mul_assoc (A B C : Matrix3f K) : A * B * C = A * (B * C) := by
  ext <;> simp only [Matrix3f.mul_def, Matrix3f.mul] <;> ring

theorem Matrix3f.mul_mulVec (A B : Matrix3f K) (v : Vector3f K) :
    (A * B) * v = A * (B * v) := by
  ext <;> simp only [Matrix3f.mul_def, Matrix3f.mul, Matrix3f.mulVec_def, Matrix3f.mulVec] <;> ring

theorem Matrix3f.identity_mul (A : Matrix3f K) : Matrix3f.identity * A = A := by
  ext <;> simp [Matrix3f.mul_def, Matrix3f.mul, Matrix3f.identity]

theorem Matrix3f.mul_identity (A : Matrix3f K) : A * Matrix3f.identity = A := by
  ext <;> simp [Matrix3f.mul_def, Matrix3f.mul, Matrix3f.identity]

theorem Matrix3f.identity_mulVec (v : Vector3f K) : (Matrix3f.identity : Matrix3f K) * v = v := by
  ext <;> simp [Matrix3f.mulVec_def, Matrix3f.mulVec, Matrix3f.identity]

theorem Matrix3f.mulVec_add (A : Matrix3f K) (u v : Vector3f K) :
    A * (u + v) = A * u + A * v := by
  ext <;> simp only [Matrix3f.mulVec_def, Matrix3f.mulVec, Vector3f.add_def, Vector3f.add] <;> ring

theorem Matrix3f.mulVec_sub (A : Matrix3f K) (u v : Vector3f K) :
    A * (u - v) = A * u - A * v := by
  ext <;> simp only [Matrix3f.mulVec_def, Matrix3f.mulVec, Vector3f.sub_def, Vector3f.sub] <;> ring

theorem Matrix3f.mulVec_scale (A : Matrix3f K) (s : K) (v : Vector3f K) :
    A * Vector3f.scale s v = Vector3f.scale s (A * v) := by
  ext <;> simp only [Matrix3f.mulVec_def, Matrix3f.mulVec, Vector3f.scale] <;> ring

theorem Matrix3f.transpose_mul (A B : Matrix3f K) :
    (A * B).transpose = B.transpose * A.transpose := by
  ext <;> simp only [Matrix3f.mul_def, Matrix3f.mul, Matrix3f.transpose] <;> ring

theorem Matrix3f.determinant_transpose (A : Matrix3f K) :
    A.transpose.determinant = A.determinant := by
  simp only [Matrix3f.determinant, Matrix3f.cofactorsCol0, Matrix3f.transpose]; ring

theorem Matrix3f.determinant_mul (A B : Matrix3f K) :
    (A * B).determinant = A.determinant * B.determinant := by
  simp only [Matrix3f.determinant, Matrix3f.cofactorsCol0, Matrix3f.mul_def, Matrix3f.mul]; ring

theorem Matrix3f.determinant_identity : (Matrix3f.identity : Matrix3f K).determinant = 1 := by
  simp [Matrix3f.determinant, Matrix3f.cofactorsCol0, Matrix3f.identity]

/-- The inverse computed by cofactors is a right inverse when the determinant
is not zero. -/
theorem Matrix3f.self_mul_inverse (A : Matrix3f K) (h : A.determinant ≠ 0) :
    A * A.inverse = Matrix3f.identity := by
  have h1 : A.determinant * (1 / A.determinant) = 1 := by field_simp
  simp only [Matrix3f.determinant, Matrix3f.cofactorsCol0] at h1
  ext <;> simp only [Matrix3f.inverse, Matrix3f.determinant, Matrix3f.cofactorsCol0,
    Matrix3f.mul_def, Matrix3f.mul, Matrix3f.identity]
  · linear_combination h1
  · ring
  · ring
  · ring
  · linear_combination h1
  · ring
  · ring
  · ring
  · linear_combination h1

/-- The dot product moves a matrix to the other side as its transpose. -/
theorem Vector3f.dot_mulVec (A : Matrix3f K) (u v : Vector3f K) :
    (A * u).dot v = u.dot (A.transpose * v) := by
  simp only [Vector3f.dot, Matrix3f.mulVec_def, Matrix3f.mulVec, Matrix3f.transpose]; ring

theorem Vector3f.dot_comm (u v : Vector3f K) : u.dot v = v.dot u := by
  simp only [Vector3f.dot]; ring

theorem Vector3f.squaredNorm_eq_dot (u : Vector3f K) : u.squaredNorm = u.dot u := rfl

theorem Matrix3f.IsRotation.inverse_eq {A : Matrix3f K} (h : A.IsRotation) :
    A.inverse = A.transpose := by
  have hd : A.determinant ≠ 0 := by rw [h.2]; exact one_ne_zero
  calc A.inverse = Matrix3f.identity * A.inverse := (Matrix3f.identity_mul _).symm
    _ = A.transpose * A * A.inverse := by rw [h.1]
    _ = A.transpose * (A * A.inverse) := Matrix3f.mul_assoc _ _ _
    _ = A.transpose := by rw [Matrix3f.self_mul_inverse A hd, Matrix3f.mul_identity]

theorem Matrix3f.IsRotation.mul_transpose {A : Matrix3f K} (h : A.IsRotation) :
    A * A.transpose = Matrix3f.identity := by
  have hd : A.determinant ≠ 0 := by rw [h.2]; exact one_ne_zero
  rw [← h.inverse_eq, Matrix3f.self_mul_inverse A hd]

theorem Matrix3f.IsRotation.transpose_isRotation {A : Matrix3f K} (h : A.IsRotation) :
    A.transpose.IsRotation :=
  ⟨by rw [Matrix3f.transpose_transpose]; exact h.mul_transpose,
   by rw [Matrix3f.determinant_transpose]; exact h.2⟩

theorem Matrix3f.IsRotation.mul_isRotation {A B : Matrix3f K} (hA : A.IsRotation) (hB : B.IsRotation) :
    (A * B).IsRotation := by
  refine ⟨?_, by rw [Matrix3f.determinant_mul, hA.2, hB.2, mul_one]⟩
  calc (A * B).transpose * (A * B)
      = B.transpose * (A.transpose * A * B) := by
        rw [Matrix3f.transpose_mul, Matrix3f.mul_assoc, Matrix3f.mul_assoc]
    _ = Matrix3f.identity := by rw [hA.1, Matrix3f.identity_mul, hB.1]

theorem Matrix3f.isRotation_identity : (Matrix3f.identity : Matrix3f K).IsRotation :=
  ⟨Matrix3f.identity_mul _, Matrix3f.determinant_identity⟩

theorem Matrix3f.IsRotation.transpose_mulVec {A : Matrix3f K} (h : A.IsRotation)
    (v : Vector3f K) : A.transpose * (A * v) = v := by
  rw [← Matrix3f.mul_mulVec, h.1, Matrix3f.identity_mulVec]

theorem Matrix3f.IsRotation.mulVec_transpose {A : Matrix3f K} (h : A.IsRotation)
    (v : Vector3f K) : A * (A.transpose * v) = v := by
  rw [← Matrix3f.mul_mulVec, h.mul_transpose, Matrix3f.identity_mulVec]

/-- A proper rotation preserves the dot product. -/
theorem Matrix3f.IsRotation.dot_preserved {A : Matrix3f K} (h : A.IsRotation)
    (u v : Vector3f K) : (A * u).dot (A * v) = u.dot v := by
  rw [Vector3f.dot_mulVec, h.transpose_mulVec]

/-- A proper rotation is its own cofactor matrix, so it commutes with the
cross product. -/
theorem Matrix3f.IsRotation.cross_preserved {A : Matrix3f K} (h : A.IsRotation)
    (u v : Vector3f K) : (A * u).cross (A * v) = A * u.cross v := by
  have hi := h.inverse_eq
  have hd := h.2
  have c00 := congrArg Matrix3f.m00 hi
  have c01 := congrArg Matrix3f.m01 hi
  have c02 := congrArg Matrix3f.m02 hi
  have c10 := congrArg Matrix3f.m10 hi
  have c11 := congrArg Matrix3f.m11 hi
  have c12 := congrArg Matrix3f.m12 hi
  have c20 := congrArg Matrix3f.m20 hi
  have c21 := congrArg Matrix3f.m21 hi
  have c22 := congrArg Matrix3f.m22 hi
  simp only [Matrix3f.inverse, hd, div_one, mul_one, Matrix3f.cofactorsCol0,
    Matrix3f.transpose] at c00 c01 c02 c10 c11 c12 c20 c21 c22
  ext <;> simp only [Vector3f.cross, Matrix3f.mulVec_def, Matrix3f.mulVec]
  · linear_combination (u.y * v.z - u.z * v.y) * c00 + (u.z * v.x - u.x * v.z) * c10
      + (u.x * v.y - u.y * v.x) * c20
  · linear_combination (u.y * v.z - u.z * v.y) * c01 + (u.z * v.x - u.x * v.z) * c11
      + (u.x * v.y - u.y * v.x) * c21
  · linear_combination (u.y * v.z - u.z * v.y) * c02 + (u.z * v.x - u.x * v.z) * c12
      + (u.x * v.y - u.y * v.x) * c22

theorem Matrix3f.isRotation_aboutX (s c : K) (h : c * c + s * s = 1) :
    (⟨1, 0, 0, 0, c, -s, 0, s, c⟩ : Matrix3f K).IsRotation := by
  constructor
  · ext <;> simp only [Matrix3f.mul_def, Matrix3f.mul, Matrix3f.transpose, Matrix3f.identity]
      <;> first | ring1 | linear_combination h
  · simp only [Matrix3f.determinant, Matrix3f.cofactorsCol0]; linear_combination h

theorem Matrix3f.isRotation_aboutY (s c : K) (h : c * c + s * s = 1) :
    (⟨c, 0, s, 0, 1, 0, -s, 0, c⟩ : Matrix3f K).IsRotation := by
  constructor
  · ext <;> simp only [Matrix3f.mul_def, Matrix3f.mul, Matrix3f.transpose, Matrix3f.identity]
      <;> first | ring1 | linear_combination h
  · simp only [Matrix3f.determinant, Matrix3f.cofactorsCol0]; linear_combination h

theorem Matrix3f.isRotation_aboutZ (s c : K) (h : c * c + s * s = 1) :
    (⟨c, -s, 0, s, c, 0, 0, 0, 1⟩ : Matrix3f K).IsRotation := by
  constructor
  · ext <;> simp only [Matrix3f.mul_def, Matrix3f.mul, Matrix3f.transpose, Matrix3f.identity]
      <;> first | ring1 | linear_combination h
  · simp only [Matrix3f.determinant, Matrix3f.cofactorsCol0]; linear_combination h

end Algebra

/-! ## The routine in exact real arithmetic -/

section RealModel

theorem norm_real (v : Vector3f ℝ) :
    v.norm realOps = Real.sqrt (v.x * v.x + v.y * v.y + v.z * v.z) := rfl

theorem squaredNorm_nonneg (v : Vector3f ℝ) : 0 ≤ v.squaredNorm := by
  simp only [Vector3f.squaredNorm]
  nlinarith [mul_self_nonneg v.x, mul_self_nonneg v.y, mul_self_nonneg v.z]

theorem norm_mul_self (v : Vector3f ℝ) :
    v.norm realOps * v.norm realOps = v.squaredNorm :=
  Real.mul_self_sqrt (squaredNorm_nonneg v)

/-- Over the reals the length of a vector is zero exactly for the zero vector. -/
theorem norm_eq_zero_iff (v : Vector3f ℝ) : v.norm realOps = 0 ↔ v = ⟨0, 0, 0⟩ := by
  constructor
  · intro h
    have h2 := norm_mul_self v
    rw [h, mul_zero] at h2
    simp only [Vector3f.squaredNorm] at h2
    have hx : v.x = 0 := by nlinarith [mul_self_nonneg v.x, mul_self_nonneg v.y, mul_self_nonneg v.z]
    have hy : v.y = 0 := by nlinarith [mul_self_nonneg v.x, mul_self_nonneg v.y, mul_self_nonneg v.z]
    have hz : v.z = 0 := by nlinarith [mul_self_nonneg v.x, mul_self_nonneg v.y, mul_self_nonneg v.z]
    ext <;> assumption
  · intro h
    subst h
    simp [norm_real]

/-- The matrix `rotationX` is a proper rotation in both branches. -/
theorem rotationX_isRotation (A : Vector3f ℝ) : (rotationX realOps A).IsRotation := by
  unfold rotationX
  simp only []
  split_ifs with hm
  · have h2 := norm_mul_self (⟨0, A.y, A.z⟩ : Vector3f ℝ)
    simp only [Vector3f.squaredNorm] at h2
    apply Matrix3f.isRotation_aboutX
    field_simp
    linear_combination -h2
  · exact Matrix3f.isRotation_identity

/-- The matrix `rotationX` carries the axis into the X-Z plane, with a
non-negative Z coordinate equal to the length of the Y-Z projection. -/
theorem rotationX_mulVec_axis (A : Vector3f ℝ) :
    rotationX realOps A * A = ⟨A.x, 0, (⟨0, A.y, A.z⟩ : Vector3f ℝ).norm realOps⟩ := by
  have h2 := norm_mul_self (⟨0, A.y, A.z⟩ : Vector3f ℝ)
  simp only [Vector3f.squaredNorm] at h2
  unfold rotationX
  simp only []
  split_ifs with hm
  · ext <;> simp only [Matrix3f.mulVec_def, Matrix3f.mulVec]
    · ring
    · field_simp; ring
    · field_simp; linear_combination -h2
  · push_neg at hm
    have hv := (norm_eq_zero_iff _).1 hm
    have hy : A.y = 0 := congrArg Vector3f.y hv
    have hz : A.z = 0 := congrArg Vector3f.z hv
    rw [hm, Matrix3f.identity_mulVec]
    ext <;> simp [hy, hz]

/-- The matrix `rotationY` is a proper rotation when the axis is not zero. -/
theorem rotationY_isRotation (A : Vector3f ℝ) (h : A.norm realOps ≠ 0) :
    (rotationY realOps A).IsRotation := by
  have h1 := norm_mul_self A
  have h2 := norm_mul_self (⟨0, A.y, A.z⟩ : Vector3f ℝ)
  simp only [Vector3f.squaredNorm] at h1 h2
  unfold rotationY
  simp only [rotationX_mulVec_axis]
  apply Matrix3f.isRotation_aboutY
  field_simp
  linear_combination h2 - h1

/-- The matrix `rotationY` carries the axis, already moved into the X-Z plane by
`rotationX`, onto the positive Z axis. -/
theorem rotationY_mulVec_axis (A : Vector3f ℝ) (h : A.norm realOps ≠ 0) :
    rotationY realOps A * (rotationX realOps A * A) = ⟨0, 0, A.norm realOps⟩ := by
  have h1 := norm_mul_self A
  have h2 := norm_mul_self (⟨0, A.y, A.z⟩ : Vector3f ℝ)
  simp only [Vector3f.squaredNorm] at h1 h2
  unfold rotationY
  simp only [rotationX_mulVec_axis]
  ext <;> simp only [Matrix3f.mulVec_def, Matrix3f.mulVec]
  · field_simp; ring
  · ring
  · field_simp; linear_combination h2 - h1

theorem rotationZ_isRotation (t : ℝ) : (rotationZ realOps t).IsRotation := by
  unfold rotationZ
  apply Matrix3f.isRotation_aboutZ
  have := Real.sin_sq_add_cos_sq t
  simp only [realOps]
  linear_combination this

theorem alignment_isRotation (A : Vector3f ℝ) (h : A.norm realOps ≠ 0) :
    (alignment realOps A).IsRotation :=
  (rotationY_isRotation A h).mul_isRotation (rotationX_isRotation A)

/-- The alignment carries the axis onto the positive Z axis. -/
theorem alignment_mulVec_axis (A : Vector3f ℝ) (h : A.norm realOps ≠ 0) :
    alignment realOps A * A = ⟨0, 0, A.norm realOps⟩ := by
  unfold alignment
  rw [Matrix3f.mul_mulVec, rotationY_mulVec_axis A h]

/-- For an axis of non-zero length the routine takes its second branch. -/
theorem rotatePointAboutAxis_unfold (P A : Vector3f ℝ) (t : ℝ) (h : A.norm realOps ≠ 0) :
    rotatePointAboutAxis realOps P A t =
      (rotationX realOps A).inverse * (rotationY realOps A).inverse * rotationZ realOps t
        * rotationY realOps A * rotationX realOps A * P := by
  unfold rotatePointAboutAxis
  simp only [if_neg h]
  rfl

/-- For an axis of non-zero length the routine conjugates the rotation about Z
by the alignment. -/
theorem rotatePointAboutAxis_conj (P A : Vector3f ℝ) (t : ℝ) (h : A.norm realOps ≠ 0) :
    rotatePointAboutAxis realOps P A t =
      (alignment realOps A).transpose * (rotationZ realOps t * (alignment realOps A * P)) := by
  rw [rotatePointAboutAxis_unfold P A t h, (rotationX_isRotation A).inverse_eq,
    (rotationY_isRotation A h).inverse_eq]
  unfold alignment
  rw [Matrix3f.transpose_mul]
  simp only [Matrix3f.mul_mulVec]

theorem norm_ne_zero {A : Vector3f ℝ} (h : A ≠ ⟨0, 0, 0⟩) : A.norm realOps ≠ 0 :=
  fun h0 => h ((norm_eq_zero_iff A).1 h0)

/-- The rotation about Z in the shape of Rodrigues' formula for the axis `(0, 0, 1)`. -/
theorem rotationZ_mulVec (t : ℝ) (w : Vector3f ℝ) :
    rotationZ realOps t * w =
      Vector3f.scale (Real.cos t) w
        + Vector3f.scale (Real.sin t) ((⟨0, 0, 1⟩ : Vector3f ℝ).cross w)
        + Vector3f.scale ((⟨0, 0, 1⟩ : Vector3f ℝ).dot w * (1 - Real.cos t)) ⟨0, 0, 1⟩ := by
  ext <;> simp only [rotationZ, realOps, Matrix3f.mulVec_def, Matrix3f.mulVec, Vector3f.add_def,
    Vector3f.add, Vector3f.scale, Vector3f.cross, Vector3f.dot] <;> ring

/-- The rotation about Z fixes every point of the Z axis. -/
theorem rotationZ_mulVec_fixed (t : ℝ) (w : Vector3f ℝ) (hx : w.x = 0) (hy : w.y = 0) :
    rotationZ realOps t * w = w := by
  ext <;> simp [rotationZ, Matrix3f.mulVec_def, Matrix3f.mulVec, hx, hy]

/-- The rotation about Z leaves the Z coordinate alone. -/
theorem rotationZ_mulVec_z (t : ℝ) (w : Vector3f ℝ) : (rotationZ realOps t * w).z = w.z := by
  simp [rotationZ, Matrix3f.mulVec_def, Matrix3f.mulVec]

theorem rotationZ_zero : rotationZ realOps 0 = Matrix3f.identity := by
  ext <;> simp [rotationZ, realOps, Matrix3f.identity]

theorem rotationZ_add (t1 t2 : ℝ) :
    rotationZ realOps t2 * rotationZ realOps t1 = rotationZ realOps (t1 + t2) := by
  ext <;> simp only [rotationZ, realOps, Matrix3f.mul_def, Matrix3f.mul, Real.cos_add,
    Real.sin_add] <;> ring

/-- The transposed alignment carries the unit Z vector to the unit axis. -/
theorem alignment_transpose_mulVec_zHat (A : Vector3f ℝ) (h : A.norm realOps ≠ 0) :
    (alignment realOps A).transpose * (⟨0, 0, 1⟩ : Vector3f ℝ)
      = Vector3f.scale (1 / A.norm realOps) A := by
  have hQ := alignment_isRotation A h
  have e : (⟨0, 0, 1⟩ : Vector3f ℝ)
      = Vector3f.scale (1 / A.norm realOps) (alignment realOps A * A) := by
    rw [alignment_mulVec_axis A h]
    ext <;> simp [Vector3f.scale, h]
  rw [e, Matrix3f.mulVec_scale, hQ.transpose_mulVec]

/-- The routine agrees with Rodrigues' formula on every axis of non-zero length. -/
theorem rotatePointAboutAxis_eq_rodrigues (P A : Vector3f ℝ) (t : ℝ)
    (h : A.norm realOps ≠ 0) :
    rotatePointAboutAxis realOps P A t = rodrigues realOps P A t := by
  have hQ := alignment_isRotation A h
  have hk := alignment_transpose_mulVec_zHat A h
  rw [rotatePointAboutAxis_conj P A t h, rotationZ_mulVec]
  simp only [Matrix3f.mulVec_add, Matrix3f.mulVec_scale]
  rw [← hQ.transpose_isRotation.cross_preserved, hQ.transpose_mulVec, hk]
  have hd : (⟨0, 0, 1⟩ : Vector3f ℝ).dot (alignment realOps A * P)
      = (Vector3f.scale (1 / A.norm realOps) A).dot P := by
    rw [Vector3f.dot_comm, Vector3f.dot_mulVec, hk, Vector3f.dot_comm]
  rw [hd]
  rfl

/-- The routine keeps the dot product with the axis. -/
theorem rotatePointAboutAxis_dot_axis (P A : Vector3f ℝ) (t : ℝ) (h : A.norm realOps ≠ 0) :
    (rotatePointAboutAxis realOps P A t).dot A = P.dot A := by
  have hQ := alignment_isRotation A h
  rw [rotatePointAboutAxis_conj P A t h, Vector3f.dot_mulVec, Matrix3f.transpose_transpose]
  rw [← hQ.dot_preserved P A, alignment_mulVec_axis A h]
  simp only [Vector3f.dot, rotationZ_mulVec_z]
  ring

/-- The routine keeps the squared length of the point. -/
theorem rotatePointAboutAxis_squaredNorm (P A : Vector3f ℝ) (t : ℝ)
    (h : A.norm realOps ≠ 0) :
    (rotatePointAboutAxis realOps P A t).squaredNorm = P.squaredNorm := by
  have hQ := alignment_isRotation A h
  rw [rotatePointAboutAxis_conj P A t h]
  simp only [Vector3f.squaredNorm_eq_dot]
  rw [hQ.transpose_isRotation.dot_preserved, (rotationZ_isRotation t).dot_preserved, hQ.dot_preserved]

/-- A zero-length axis makes the routine return the point. -/
theorem rotatePointAboutAxis_of_norm_eq_zero (P A : Vector3f ℝ) (t : ℝ)
    (h : A.norm realOps = 0) : rotatePointAboutAxis realOps P A t = P := by
  unfold rotatePointAboutAxis
  simp only [if_pos h]

/-- The routine reads the angle only through its sine and cosine. -/
theorem rotatePointAboutAxis_congr_angle (P A : Vector3f ℝ) (t u : ℝ)
    (hc : Real.cos t = Real.cos u) (hs : Real.sin t = Real.sin u) :
    rotatePointAboutAxis realOps P A t = rotatePointAboutAxis realOps P A u := by
  unfold rotatePointAboutAxis
  simp only [realOps, hc, hs]

theorem rotatePointAboutAxis_zero_angle (P A : Vector3f ℝ) :
    rotatePointAboutAxis realOps P A 0 = P := by
  by_cases h : A.norm realOps = 0
  · exact rotatePointAboutAxis_of_norm_eq_zero P A 0 h
  · rw [rotatePointAboutAxis_conj P A 0 h, rotationZ_zero, Matrix3f.identity_mulVec,
      (alignment_isRotation A h).transpose_mulVec]

theorem cos_neg_two_pi_div_three : Real.cos (-2 * Real.pi / 3) = -(1 / 2) := by
  have e : -2 * Real.pi / 3 = -(Real.pi - Real.pi / 3) := by ring
  rw [e, Real.cos_neg, Real.cos_pi_sub, Real.cos_pi_div_three]

theorem sin_neg_two_pi_div_three : Real.sin (-2 * Real.pi / 3) = -(Real.sqrt 3 / 2) := by
  have e : -2 * Real.pi / 3 = -(Real.pi - Real.pi / 3) := by ring
  rw [e, Real.sin_neg, Real.sin_pi_sub, Real.sin_pi_div_three]

/-- The worked example of `main`: the point `(1, 0, 0)` turned about the axis
`(1, 1, 1)` by `-2π/3` is exactly `(0, 0, 1)`. -/
theorem worked_example_value :
    rotatePointAboutAxis realOps ⟨1, 0, 0⟩ ⟨1, 1, 1⟩ (-2 * Real.pi / 3) = ⟨0, 0, 1⟩ := by
  have h3 : Real.sqrt 3 * Real.sqrt 3 = 3 := Real.mul_self_sqrt (by norm_num)
  have h3pos : Real.sqrt 3 ≠ 0 := by
    intro h0
    rw [h0] at h3
    norm_num at h3
  have hn : (⟨1, 1, 1⟩ : Vector3f ℝ).norm realOps = Real.sqrt 3 := by
    rw [norm_real]
    norm_num
  have hne : (⟨1, 1, 1⟩ : Vector3f ℝ).norm realOps ≠ 0 := by rw [hn]; exact h3pos
  rw [rotatePointAboutAxis_eq_rodrigues _ _ _ hne]
  simp only [rodrigues, hn]
  ext <;> simp only [realOps, cos_neg_two_pi_div_three, sin_neg_two_pi_div_three,
    Vector3f.add_def, Vector3f.add, Vector3f.scale, Vector3f.cross, Vector3f.dot]
  · field_simp
    linear_combination (-2) * h3
  · field_simp
    linear_combination (-2 * Real.sqrt 3) * h3
  · field_simp
    linear_combination (-2 * Real.sqrt 3) * h3

theorem squaredNorm_sub_foot (X A : Vector3f ℝ) (c : ℝ) :
    (X - Vector3f.scale c A).squaredNorm
      = X.squaredNorm - 2 * c * X.dot A + c * c * A.dot A := by
  simp only [Vector3f.squaredNorm, Vector3f.dot, Vector3f.sub_def, Vector3f.sub,
    Vector3f.scale]
  ring

/-- The routine keeps the perpendicular distance from the axis. -/
theorem rotatePointAboutAxis_perpDistance (P A : Vector3f ℝ) (t : ℝ)
    (h : A.norm realOps ≠ 0) :
    perpDistance realOps (rotatePointAboutAxis realOps P A t) A = perpDistance realOps P A := by
  unfold perpDistance footOnAxis Vector3f.norm
  rw [squaredNorm_sub_foot, squaredNorm_sub_foot, rotatePointAboutAxis_dot_axis P A t h,
    rotatePointAboutAxis_squaredNorm P A t h]

/-- Two turns about one axis compose to the turn by the sum of the angles. -/
theorem rotatePointAboutAxis_add (P A : Vector3f ℝ) (t1 t2 : ℝ) (h : A.norm realOps ≠ 0) :
    rotatePointAboutAxis realOps (rotatePointAboutAxis realOps P A t1) A t2
      = rotatePointAboutAxis realOps P A (t1 + t2) := by
  have hQ := alignment_isRotation A h
  rw [rotatePointAboutAxis_conj _ A t2 h, rotatePointAboutAxis_conj P A t1 h,
    rotatePointAboutAxis_conj P A (t1 + t2) h, hQ.mulVec_transpose, ← Matrix3f.mul_mulVec
      (rotationZ realOps t2), rotationZ_add]

/-- The points of the axis are fixed. -/
theorem rotatePointAboutAxis_on_axis (A : Vector3f ℝ) (s t : ℝ) (h : A.norm realOps ≠ 0) :
    rotatePointAboutAxis realOps (Vector3f.scale s A) A t = Vector3f.scale s A := by
  have hQ := alignment_isRotation A h
  rw [rotatePointAboutAxis_conj _ A t h, rotationZ_mulVec_fixed, hQ.transpose_mulVec]
  · rw [Matrix3f.mulVec_scale, alignment_mulVec_axis A h]
    simp [Vector3f.scale]
  · rw [Matrix3f.mulVec_scale, alignment_mulVec_axis A h]
    simp [Vector3f.scale]

/-- On the axis `(1, 0, 0)` the routine is the standard rotation about X. -/
theorem rotatePointAboutAxis_xHat (P : Vector3f ℝ) (t : ℝ) :
    rotatePointAboutAxis realOps P ⟨1, 0, 0⟩ t
      = ⟨P.x, P.y * Real.cos t - P.z * Real.sin t, P.y * Real.sin t + P.z * Real.cos t⟩ := by
  have hn : (⟨1, 0, 0⟩ : Vector3f ℝ).norm realOps = 1 := by
    rw [norm_real]
    norm_num
  have hne : (⟨1, 0, 0⟩ : Vector3f ℝ).norm realOps ≠ 0 := by rw [hn]; exact one_ne_zero
  rw [rotatePointAboutAxis_eq_rodrigues _ _ _ hne]
  simp only [rodrigues, hn]
  ext <;> simp only [realOps, Vector3f.add_def, Vector3f.add, Vector3f.scale, Vector3f.cross,
    Vector3f.dot] <;> ring

/-- On the axis `(1, 0, 0)` the Y-Z projection has length zero and `rotationX`
is the identity. -/
theorem rotationX_xHat : rotationX realOps ⟨1, 0, 0⟩ = Matrix3f.identity := by
  have hn : (⟨0, 0, 0⟩ : Vector3f ℝ).norm realOps = 0 := by
    rw [norm_real]
    norm_num
  unfold rotationX
  simp only [hn, ne_eq, not_true_eq_false, if_false]

/-! ### Helpers for the two-point form, the alignment and the symmetries -/

theorem vec_sub_ne_zero {p1 p2 : Vector3f ℝ} (h : p1 ≠ p2) : p2 - p1 ≠ ⟨0, 0, 0⟩ := by
  intro h0
  apply h
  have hx := congrArg Vector3f.x h0
  have hy := congrArg Vector3f.y h0
  have hz := congrArg Vector3f.z h0
  simp only [Vector3f.sub_def, Vector3f.sub] at hx hy hz
  ext <;> linarith

/-- The two-point form unfolds to a translation, the direction-vector form and
the translation back. -/
theorem rotatePointAboutAxisP1P2_eq (P p1 p2 : Vector3f ℝ) (t : ℝ) :
    rotatePointAboutAxisP1P2 realOps P p1 p2 t
      = rotatePointAboutAxis realOps (P - p1) (p2 - p1) t + p1 := rfl

/-- The direction-vector form commutes with differences of points. -/
theorem rotatePointAboutAxis_sub (P Q A : Vector3f ℝ) (t : ℝ) :
    rotatePointAboutAxis realOps P A t - rotatePointAboutAxis realOps Q A t
      = rotatePointAboutAxis realOps (P - Q) A t := by
  by_cases h : A.norm realOps = 0
  · simp only [rotatePointAboutAxis_of_norm_eq_zero _ A t h]
  · simp only [rotatePointAboutAxis_conj _ A t h, Matrix3f.mulVec_sub]

/-- The length of the reversed vector. -/
theorem norm_neg_vec (A : Vector3f ℝ) :
    (⟨-A.x, -A.y, -A.z⟩ : Vector3f ℝ).norm realOps = A.norm realOps := by
  simp only [norm_real]
  congr 1
  ring

/-- Reversing the axis is the same as negating the angle. -/
theorem rotatePointAboutAxis_neg_axis (P A : Vector3f ℝ) (t : ℝ) :
    rotatePointAboutAxis realOps P ⟨-A.x, -A.y, -A.z⟩ t
      = rotatePointAboutAxis realOps P A (-t) := by
  by_cases h : A.norm realOps = 0
  · rw [rotatePointAboutAxis_of_norm_eq_zero P A _ h,
      rotatePointAboutAxis_of_norm_eq_zero P _ t ((norm_neg_vec A).trans h)]
  · have h2 : (⟨-A.x, -A.y, -A.z⟩ : Vector3f ℝ).norm realOps ≠ 0 := by
      rw [norm_neg_vec]; exact h
    rw [rotatePointAboutAxis_eq_rodrigues P A _ h, rotatePointAboutAxis_eq_rodrigues P _ t h2]
    simp only [rodrigues, norm_neg_vec]
    ext <;> simp only [realOps, Real.cos_neg, Real.sin_neg, Vector3f.add_def, Vector3f.add,
      Vector3f.scale, Vector3f.cross, Vector3f.dot] <;> ring

theorem vec_add_sub_add_right (u v p : Vector3f ℝ) : u + p - (v + p) = u - v := by
  ext <;> simp only [Vector3f.sub_def, Vector3f.sub, Vector3f.add_def, Vector3f.add] <;> ring

theorem vec_sub_add_eq (u p v : Vector3f ℝ) : u - (p + v) = u - p - v := by
  ext <;> simp only [Vector3f.sub_def, Vector3f.sub, Vector3f.add_def, Vector3f.add] <;> ring

theorem vec_sub_add_add_cancel (u v p : Vector3f ℝ) : u - v + (p + v) = u + p := by
  ext <;> simp only [Vector3f.sub_def, Vector3f.sub, Vector3f.add_def, Vector3f.add] <;> ring

/-- Sliding both defining points along their line does not change the two-point
form. -/
theorem rotatePointAboutAxisP1P2_slide (P p1 p2 : Vector3f ℝ) (s t : ℝ) (h : p1 ≠ p2) :
    rotatePointAboutAxisP1P2 realOps P (p1 + Vector3f.scale s (p2 - p1))
        (p2 + Vector3f.scale s (p2 - p1)) t
      = rotatePointAboutAxisP1P2 realOps P p1 p2 t := by
  rw [rotatePointAboutAxisP1P2_eq, rotatePointAboutAxisP1P2_eq, vec_add_sub_add_right,
    vec_sub_add_eq, ← rotatePointAboutAxis_sub,
    rotatePointAboutAxis_on_axis _ s t (norm_ne_zero (vec_sub_ne_zero h)),
    vec_sub_add_add_cancel]

end RealModel

/-! ## The integer helpers of the binary32 instance -/

section Binary32Model

theorem Binary32.lt_two_pow_bitLengthAux (fuel : ℕ) :
    ∀ n : ℕ, n ≤ fuel → n < 2 ^ Binary32.bitLengthAux fuel n := by
  induction fuel with
  | zero =>
    intro n h
    have h0 : n = 0 := Nat.le_zero.1 h
    subst h0
    simp [Binary32.bitLengthAux]
  | succ fuel ih =>
    intro n h
    unfold Binary32.bitLengthAux
    split_ifs with h0
    · subst h0
      simp
    · have h2 : n / 2 ≤ fuel := by omega
      have h3 := ih (n / 2) h2
      rw [pow_succ]
      omega

/-- A number is below two to the power of its number of binary digits. -/
theorem Binary32.lt_two_pow_bitLength (n : ℕ) : n < 2 ^ Binary32.bitLength n :=
  Binary32.lt_two_pow_bitLengthAux n n le_rfl

theorem Binary32.isqrtAux_spec (n : ℕ) :
    ∀ (i r : ℕ), r * r ≤ n → n < (r + 2 ^ i) * (r + 2 ^ i) →
      Binary32.isqrtAux n i r * Binary32.isqrtAux n i r ≤ n
        ∧ n < (Binary32.isqrtAux n i r + 1) * (Binary32.isqrtAux n i r + 1) := by
  intro i
  induction i with
  | zero =>
    intro r h1 h2
    simpa [Binary32.isqrtAux] using And.intro h1 h2
  | succ i ih =>
    intro r h1 h2
    unfold Binary32.isqrtAux
    split_ifs with h
    · refine ih (r + 2 ^ i) h ?_
      have e : r + 2 ^ i + 2 ^ i = r + 2 ^ (i + 1) := by rw [pow_succ]; ring
      rw [e]
      exact h2
    · exact ih r h1 (not_le.1 h)

/-- The digit-by-digit square root is the integer square root. -/
theorem Binary32.isqrt_eq_sqrt (n : ℕ) : Binary32.isqrt n = Nat.sqrt n := by
  have hb := Binary32.lt_two_pow_bitLength n
  have h2 : n < (0 + 2 ^ Binary32.bitLength n) * (0 + 2 ^ Binary32.bitLength n) := by
    rw [Nat.zero_add]
    have h1 : 1 ≤ 2 ^ Binary32.bitLength n := Nat.one_le_two_pow
    calc n < 2 ^ Binary32.bitLength n := hb
      _ = 2 ^ Binary32.bitLength n * 1 := (Nat.mul_one _).symm
      _ ≤ 2 ^ Binary32.bitLength n * 2 ^ Binary32.bitLength n := Nat.mul_le_mul_left _ h1
  have hs := Binary32.isqrtAux_spec n (Binary32.bitLength n) 0 (by simp) h2
  exact Nat.eq_sqrt.2 hs

end Binary32Model

/-! ## The claims -/

section Claims

/-- C1: for every point `P`, every non-zero axis `A` and every angle `t`, the
direction-vector form of the routine equals Rodrigues' rotation formula with
the unit axis `k = A / |A|`, that is
`P * cos t + (k × P) * sin t + k * (k · P) * (1 - cos t)`, the right-hand-rule
rotation of `P` by `t` about `A`, in exact real arithmetic. -/
theorem rotatePointAboutAxis_refines_rodrigues (P A : Vector3f ℝ) (t : ℝ)
    (hA : A ≠ ⟨0, 0, 0⟩) :
    rotatePointAboutAxis realOps P A t = rodrigues realOps P A t :=
  rotatePointAboutAxis_eq_rodrigues P A t (norm_ne_zero hA)

/-- C1 at the point `(1, 2, 3)`, the axis `(0, 0, 2)` and the angle `1`. -/
theorem rotatePointAboutAxis_refines_rodrigues_witness :
    (⟨0, 0, 2⟩ : Vector3f ℝ) ≠ ⟨0, 0, 0⟩ ∧
      rotatePointAboutAxis realOps ⟨1, 2, 3⟩ ⟨0, 0, 2⟩ 1 = rodrigues realOps ⟨1, 2, 3⟩ ⟨0, 0, 2⟩ 1 :=
  ⟨by simp, rotatePointAboutAxis_refines_rodrigues ⟨1, 2, 3⟩ ⟨0, 0, 2⟩ 1 (by simp)⟩

/-- C2 as stated fails: for the point `(1, 0, 0)`, the axis `(1, 1, 1)` and the
angle `-2π/3` the result is not within `1e-5` in every coordinate of
`(0, 1, 0)`. -/
theorem worked_example_not_near_yHat :
    ¬ (|(rotatePointAboutAxis realOps ⟨1, 0, 0⟩ ⟨1, 1, 1⟩ (-2 * Real.pi / 3)).x - 0| ≤ 1 / 100000
      ∧ |(rotatePointAboutAxis realOps ⟨1, 0, 0⟩ ⟨1, 1, 1⟩ (-2 * Real.pi / 3)).y - 1| ≤ 1 / 100000
      ∧ |(rotatePointAboutAxis realOps ⟨1, 0, 0⟩ ⟨1, 1, 1⟩ (-2 * Real.pi / 3)).z - 0| ≤ 1 / 100000) := by
  rw [worked_example_value]
  norm_num

/-- C2 amended: for the point `(1, 0, 0)`, the axis `(1, 1, 1)` and the angle
`-2π/3` the result is the point `(0, 0, 1)`, so it is within `1e-5` in every
coordinate of `(0, 0, 1)`. -/
theorem worked_example_near_zHat :
    rotatePointAboutAxis realOps ⟨1, 0, 0⟩ ⟨1, 1, 1⟩ (-2 * Real.pi / 3) = ⟨0, 0, 1⟩
      ∧ |(rotatePointAboutAxis realOps ⟨1, 0, 0⟩ ⟨1, 1, 1⟩ (-2 * Real.pi / 3)).x - 0| ≤ 1 / 100000
      ∧ |(rotatePointAboutAxis realOps ⟨1, 0, 0⟩ ⟨1, 1, 1⟩ (-2 * Real.pi / 3)).y - 0| ≤ 1 / 100000
      ∧ |(rotatePointAboutAxis realOps ⟨1, 0, 0⟩ ⟨1, 1, 1⟩ (-2 * Real.pi / 3)).z - 1| ≤ 1 / 100000 := by
  rw [worked_example_value]
  norm_num

/-- C3: for every point `P` and every angle `t`, the routine called with the
zero axis returns exactly `P`: the early return makes a zero-length axis a
no-op, whatever the angle. -/
theorem degenerate_axis_returns_point (P : Vector3f ℝ) (t : ℝ) :
    rotatePointAboutAxis realOps P ⟨0, 0, 0⟩ t = P :=
  rotatePointAboutAxis_of_norm_eq_zero P ⟨0, 0, 0⟩ t ((norm_eq_zero_iff _).2 rfl)

/-- C4: for every point `P`, every non-zero axis `A` and every angle `t`, the
perpendicular distance from the rotated point to the line through the origin
along `A` equals the perpendicular distance from `P` to that line. -/
theorem perpendicular_distance_preserved (P A : Vector3f ℝ) (t : ℝ) (hA : A ≠ ⟨0, 0, 0⟩) :
    perpDistance realOps (rotatePointAboutAxis realOps P A t) A = perpDistance realOps P A :=
  rotatePointAboutAxis_perpDistance P A t (norm_ne_zero hA)

/-- C4 at the point `(1, 2, 3)`, the axis `(1, 1, 1)` and the angle `1`. -/
theorem perpendicular_distance_preserved_witness :
    (⟨1, 1, 1⟩ : Vector3f ℝ) ≠ ⟨0, 0, 0⟩ ∧
      perpDistance realOps (rotatePointAboutAxis realOps ⟨1, 2, 3⟩ ⟨1, 1, 1⟩ 1) ⟨1, 1, 1⟩
        = perpDistance realOps ⟨1, 2, 3⟩ ⟨1, 1, 1⟩ :=
  ⟨by simp, perpendicular_distance_preserved ⟨1, 2, 3⟩ ⟨1, 1, 1⟩ 1 (by simp)⟩

/-- C6: angle additivity: for every point `P`, every non-zero axis `A` and all
angles `t1`, `t2`, rotating by `t1` and then by `t2` about `A` equals rotating
once by `t1 + t2`. -/
theorem angle_additivity (P A : Vector3f ℝ) (t1 t2 : ℝ) (hA : A ≠ ⟨0, 0, 0⟩) :
    rotatePointAboutAxis realOps (rotatePointAboutAxis realOps P A t1) A t2
      = rotatePointAboutAxis realOps P A (t1 + t2) :=
  rotatePointAboutAxis_add P A t1 t2 (norm_ne_zero hA)

/-- C6 at the point `(1, 2, 3)`, the axis `(1, 1, 1)` and the angles `1`, `2`. -/
theorem angle_additivity_witness :
    (⟨1, 1, 1⟩ : Vector3f ℝ) ≠ ⟨0, 0, 0⟩ ∧
      rotatePointAboutAxis realOps (rotatePointAboutAxis realOps ⟨1, 2, 3⟩ ⟨1, 1, 1⟩ 1) ⟨1, 1, 1⟩ 2
        = rotatePointAboutAxis realOps ⟨1, 2, 3⟩ ⟨1, 1, 1⟩ (1 + 2) :=
  ⟨by simp, angle_additivity ⟨1, 2, 3⟩ ⟨1, 1, 1⟩ 1 2 (by simp)⟩

/-- C8: identity at zero angle: for every point `P` and every non-zero axis `A`,
rotating `P` about `A` by the angle `0` returns `P`. -/
theorem identity_at_zero_angle (P A : Vector3f ℝ) (hA : A ≠ ⟨0, 0, 0⟩) :
    rotatePointAboutAxis realOps P A 0 = P := by
  have h := norm_ne_zero hA
  rw [rotatePointAboutAxis_conj P A 0 h, rotationZ_zero, Matrix3f.identity_mulVec,
    (alignment_isRotation A h).transpose_mulVec]

/-- C8 at the point `(1, 2, 3)` and the axis `(1, 1, 1)`. -/
theorem identity_at_zero_angle_witness :
    (⟨1, 1, 1⟩ : Vector3f ℝ) ≠ ⟨0, 0, 0⟩ ∧
      rotatePointAboutAxis realOps ⟨1, 2, 3⟩ ⟨1, 1, 1⟩ 0 = ⟨1, 2, 3⟩ :=
  ⟨by simp, identity_at_zero_angle ⟨1, 2, 3⟩ ⟨1, 1, 1⟩ (by simp)⟩

/-- C9: periodicity: for every point `P`, every axis `A` and every angle `t`,
rotating by `t + 2π` gives the same result as rotating by `t`; hence rotating
by any integer multiple of `2π` is the identity. -/
theorem periodicity :
    (∀ (P A : Vector3f ℝ) (t : ℝ),
        rotatePointAboutAxis realOps P A (t + 2 * Real.pi) = rotatePointAboutAxis realOps P A t)
      ∧ ∀ (P A : Vector3f ℝ) (n : ℤ),
        rotatePointAboutAxis realOps P A (n * (2 * Real.pi)) = P := by
  constructor
  · intro P A t
    exact rotatePointAboutAxis_congr_angle P A _ _ (Real.cos_add_two_pi t) (Real.sin_add_two_pi t)
  · intro P A n
    rw [rotatePointAboutAxis_congr_angle P A (n * (2 * Real.pi)) 0
      (by rw [Real.cos_int_mul_two_pi, Real.cos_zero])
      (by rw [Real.sin_zero]; exact Real.sin_periodic.int_mul_eq n |>.trans Real.sin_zero)]
    exact rotatePointAboutAxis_zero_angle P A

/-- C10: the axis-already-aligned case: for the axis `(1, 0, 0)` the matrix
`rotationX` is the identity, and for every point `(x, y, z)` and every angle
`t` the result is the standard rotation about the X axis,
`(x, y * cos t - z * sin t, y * sin t + z * cos t)`; in particular it is
`(x, y, z)` at `t = 0`, `(x, -z, y)` at `t = π/2` and `(x, -y, -z)` at `t = π`. -/
theorem axis_aligned_with_x :
    rotationX realOps ⟨1, 0, 0⟩ = Matrix3f.identity
      ∧ (∀ x y z t : ℝ, rotatePointAboutAxis realOps ⟨x, y, z⟩ ⟨1, 0, 0⟩ t
          = ⟨x, y * Real.cos t - z * Real.sin t, y * Real.sin t + z * Real.cos t⟩)
      ∧ (∀ x y z : ℝ, rotatePointAboutAxis realOps ⟨x, y, z⟩ ⟨1, 0, 0⟩ 0 = ⟨x, y, z⟩)
      ∧ (∀ x y z : ℝ, rotatePointAboutAxis realOps ⟨x, y, z⟩ ⟨1, 0, 0⟩ (Real.pi / 2) = ⟨x, -z, y⟩)
      ∧ (∀ x y z : ℝ, rotatePointAboutAxis realOps ⟨x, y, z⟩ ⟨1, 0, 0⟩ Real.pi = ⟨x, -y, -z⟩) := by
  refine ⟨rotationX_xHat, ?_, ?_, ?_, ?_⟩
  · intro x y z t
    exact rotatePointAboutAxis_xHat ⟨x, y, z⟩ t
  · intro x y z
    rw [rotatePointAboutAxis_xHat]
    simp
  · intro x y z
    rw [rotatePointAboutAxis_xHat]
    simp
  · intro x y z
    rw [rotatePointAboutAxis_xHat]
    simp

/-- C12: two-point form consistency: for every point `P`, all points `p1 ≠ p2`
and every angle `t`, the two-point form equals the direction-vector form
applied to `P - p1` with the axis `p2 - p1`, translated back by `+ p1`. -/
theorem two_point_form_consistency (P p1 p2 : Vector3f ℝ) (t : ℝ) (_hp : p1 ≠ p2) :
    rotatePointAboutAxisP1P2 realOps P p1 p2 t
      = rotatePointAboutAxis realOps (P - p1) (p2 - p1) t + p1 :=
  rotatePointAboutAxisP1P2_eq P p1 p2 t

/-- C12 at the point `(1, 2, 3)`, the pair `(1, 0, 0)`, `(1, 0, 2)` and the angle `1`. -/
theorem two_point_form_consistency_witness :
    (⟨1, 0, 0⟩ : Vector3f ℝ) ≠ ⟨1, 0, 2⟩ ∧
      rotatePointAboutAxisP1P2 realOps ⟨1, 2, 3⟩ ⟨1, 0, 0⟩ ⟨1, 0, 2⟩ 1
        = rotatePointAboutAxis realOps ((⟨1, 2, 3⟩ : Vector3f ℝ) - ⟨1, 0, 0⟩)
            ((⟨1, 0, 2⟩ : Vector3f ℝ) - ⟨1, 0, 0⟩) 1 + ⟨1, 0, 0⟩ :=
  ⟨by simp, two_point_form_consistency ⟨1, 2, 3⟩ ⟨1, 0, 0⟩ ⟨1, 0, 2⟩ 1 (by simp)⟩

/-- C16: reversing the axis direction is the same as negating the angle: for
every point `P`, every axis `A` and every angle `t`, rotating about `-A` by
`t` equals rotating about `A` by `-t`. -/
theorem axis_reversal_negates_angle (P A : Vector3f ℝ) (t : ℝ) :
    rotatePointAboutAxis realOps P ⟨-A.x, -A.y, -A.z⟩ t
      = rotatePointAboutAxis realOps P A (-t) :=
  rotatePointAboutAxis_neg_axis P A t

/-- C19 amended: in exact real arithmetic the two-point form depends only on
the oriented line, not on which points of it are given: for all points
`p1 ≠ p2`, every real `s`, every point
`P` and every angle `t`, rotating about the pair
`(p1 + s * (p2 - p1), p2 + s * (p2 - p1))` gives the same result as rotating
about the pair `(p1, p2)`. -/
theorem two_point_form_depends_on_line_only (P p1 p2 : Vector3f ℝ) (s t : ℝ) (hp : p1 ≠ p2) :
    rotatePointAboutAxisP1P2 realOps P (p1 + Vector3f.scale s (p2 - p1))
        (p2 + Vector3f.scale s (p2 - p1)) t
      = rotatePointAboutAxisP1P2 realOps P p1 p2 t :=
  rotatePointAboutAxisP1P2_slide P p1 p2 s t hp

/-- C19 at the point `(1, 2, 3)`, the pair `(1, 0, 0)`, `(1, 0, 2)`, the scalar
`5` and the angle `1`. -/
theorem two_point_form_depends_on_line_only_witness :
    (⟨1, 0, 0⟩ : Vector3f ℝ) ≠ ⟨1, 0, 2⟩ ∧
      rotatePointAboutAxisP1P2 realOps ⟨1, 2, 3⟩
          ((⟨1, 0, 0⟩ : Vector3f ℝ) + Vector3f.scale 5 ((⟨1, 0, 2⟩ : Vector3f ℝ) - ⟨1, 0, 0⟩))
          ((⟨1, 0, 2⟩ : Vector3f ℝ) + Vector3f.scale 5 ((⟨1, 0, 2⟩ : Vector3f ℝ) - ⟨1, 0, 0⟩)) 1
        = rotatePointAboutAxisP1P2 realOps ⟨1, 2, 3⟩ ⟨1, 0, 0⟩ ⟨1, 0, 2⟩ 1 :=
  ⟨by simp, two_point_form_depends_on_line_only ⟨1, 2, 3⟩ ⟨1, 0, 0⟩ ⟨1, 0, 2⟩ 5 1 (by simp)⟩

/-! ### The claims that hold in exact arithmetic only: binary32 counterexamples -/

section Binary32Counterexamples

open Binary32

/-- C19 as stated fails in binary32.  For the pair `p1 = (0, 0, 0)`,
`p2 = (0, 0, 4)`, the scalar `s = 2^23` and the point `P = (1, 0, 1)`, the slid
pair is `(0, 0, 2^25)`, `(0, 0, 2^25 + 4)`; about it the Z coordinate `1` of
`P` is lost in `point - p1`, and the results differ in the Z coordinate
(`0` against `1`). -/
theorem two_point_form_depends_on_points_in_binary32 :
    (⟨0, 0, 0⟩ : Vector3f Binary32) ≠ ⟨0, 0, dyadic 1 2⟩
      ∧ (⟨0, 0, 0⟩ : Vector3f Binary32)
            + Vector3f.scale (dyadic 1 23) ((⟨0, 0, dyadic 1 2⟩ : Vector3f Binary32) - ⟨0, 0, 0⟩)
          = ⟨0, 0, dyadic 1 25⟩
      ∧ (⟨0, 0, dyadic 1 2⟩ : Vector3f Binary32)
            + Vector3f.scale (dyadic 1 23) ((⟨0, 0, dyadic 1 2⟩ : Vector3f Binary32) - ⟨0, 0, 0⟩)
          = ⟨0, 0, dyadic 8388609 2⟩
      ∧ rotatePointAboutAxisP1P2 binary32Ops ⟨1, 0, 1⟩ ⟨0, 0, dyadic 1 25⟩
            ⟨0, 0, dyadic 8388609 2⟩ 1
          = ⟨dyadic 9064768 (-24), dyadic 14117540 (-24), 0⟩
      ∧ rotatePointAboutAxisP1P2 binary32Ops ⟨1, 0, 1⟩ ⟨0, 0, 0⟩ ⟨0, 0, dyadic 1 2⟩ 1
          = ⟨dyadic 9064768 (-24), dyadic 14117540 (-24), 1⟩
      ∧ rotatePointAboutAxisP1P2 binary32Ops ⟨1, 0, 1⟩
            ((⟨0, 0, 0⟩ : Vector3f Binary32)
              + Vector3f.scale (dyadic 1 23) ((⟨0, 0, dyadic 1 2⟩ : Vector3f Binary32) - ⟨0, 0, 0⟩))
            ((⟨0, 0, dyadic 1 2⟩ : Vector3f Binary32)
              + Vector3f.scale (dyadic 1 23) ((⟨0, 0, dyadic 1 2⟩ : Vector3f Binary32) - ⟨0, 0, 0⟩))
            1
          ≠ rotatePointAboutAxisP1P2 binary32Ops ⟨1, 0, 1⟩ ⟨0, 0, 0⟩ ⟨0, 0, dyadic 1 2⟩ 1 := by
  decide!

end Binary32Counterexamples

end Claims


end Rotations3D
